import Mathlib

/-!
Verification of the bonus-payment scheduler (`bonus.py`).

The development shallowly embeds the program: calendar arithmetic is done on
absolute day counts (days since 1970-01-01), the PuLP model is embedded as a
decidable feasibility predicate over an explicit assignment of every decision
variable, and the reporting / CSV-export steps are embedded as pure functions
of the solved values.
-/

namespace Bonus

/-! ### Calendar arithmetic (`closest_weekday`, `calendar.monthrange`, `get_paydays`) -/

/-- Day count of a Gregorian calendar date, with day 0 = 1970-01-01
(standard civil-from-days algorithm, floor division). -/
def civil (y m d : Int) : Int :=
  let y' := if m ≤ 2 then y - 1 else y
  let era := y'.fdiv 400
  let yoe := y' - era * 400
  let mp := (m + 9).emod 12
  let doy := (153 * mp + 2).fdiv 5 + d - 1
  let doe := yoe * 365 + yoe.fdiv 4 - yoe.fdiv 100 + doy
  era * 146097 + doe - 719468

/-- Python `datetime.weekday()`: Monday = 0, ..., Sunday = 6.
1970-01-01 was a Thursday (weekday 3). -/
def weekday (a : Int) : Int := (a + 3).emod 7

/-- Python `calendar.isleap`. -/
def isLeap (y : Int) : Bool :=
  (y.emod 4 == 0 && y.emod 100 != 0) || y.emod 400 == 0

/-- Last day of the month, i.e. `calendar.monthrange(y, m)[1]`. -/
def monthLastDay (y m : Int) : Int :=
  if m == 2 then (if isLeap y then 29 else 28)
  else if m == 4 || m == 6 || m == 9 || m == 11 then 30
  else 31

/-- Source `closest_weekday(year, month, day)`: shift a Saturday back one day
and a Sunday forward one day.  Returns the absolute day count of the result. -/
def closest_weekday (y m d : Int) : Int :=
  let a := civil y m d
  if weekday a == 5 then a - 1
  else if weekday a == 6 then a + 1
  else a

/-- The per-month candidate paydays generated by `get_paydays`, in generation
order: for each month, the weekday closest to the 15th, then the weekday
closest to the last day of the month (absolute day counts). -/
def paydayCandidates (year : Int) : List Int :=
  (List.range 12).flatMap (fun i =>
    [closest_weekday year ((i : Int) + 1) 15,
     closest_weekday year ((i : Int) + 1) (monthLastDay year ((i : Int) + 1))])

/-- Source `get_paydays(year)` relative to a reference day `today` (absolute
day count): keep the candidates strictly after today, as offsets from today. -/
def get_paydays (year today : Int) : List Int :=
  ((paydayCandidates year).filter (fun d => today < d)).map (fun d => d - today)

/-! ### Accounts and model parameters -/

/-- Account record: all dates are integer day offsets from today; the five
payoff fields are optional, defaulting to `None` in the source. -/
structure Account where
  name : String
  start_date : Int
  days_till_deadline : Int
  total_amount : Option Int
  num_payments : Option Int
  value_per_payment : Option Int
  min_payments : Option Int
  total_sum : Option Int
deriving DecidableEq

/-- Python truthiness of an optional integer field: truthy iff present and
non-zero (`None` and `0` are both falsy). -/
def truthy (o : Option Int) : Bool := o.getD 0 != 0

/-- Budget received each payday (`pay_amount = 675`). -/
def pay_amount : Int := 675

/-- Big-M constant (`M = 1000`). -/
def M : Int := 1000

/-- Floor for any non-zero disbursement (`minimum_payment = 100`). -/
def minimum_payment : Int := 100

/-- Margin subtracted from every deadline window (`safety_days = 10`). -/
def safety_days : Int := 10

/-- The driver's `account.days_till_deadline -= safety_days` on one account. -/
def safetyAdj (a : Account) : Account :=
  ⟨a.name, a.start_date, a.days_till_deadline - safety_days, a.total_amount,
   a.num_payments, a.value_per_payment, a.min_payments, a.total_sum⟩

/-- The driver loop subtracting the safety margin from every account. -/
def applySafety (accounts : List Account) : List Account :=
  accounts.map safetyAdj

/-! ### The MILP model as a feasibility predicate -/

/-- A value for every decision variable of the model. -/
structure Assignment where
  amounts : Int → Account → Int
  paid : Int → Account → Int
  created : Account → Int
  last_payment : Account → Int
  lastSel : Int → Account → Int
  maxLast : Int

/-- Constraints added under `if account.total_amount:` — the lump-sum variant. -/
def lumpC (paydays : List Int) (σ : Assignment) (a : Account) : Prop :=
  (paydays.map (fun p => σ.amounts p a)).sum = a.total_amount.getD 0 ∧
  1 ≤ (paydays.map (fun p => σ.paid p a)).sum

/-- Constraints added under `if account.num_payments and account.value_per_payment:`
— the fixed-plan variant. -/
def fixedC (paydays : List Int) (σ : Assignment) (a : Account) : Prop :=
  (paydays.map (fun p => σ.paid p a)).sum = a.num_payments.getD 0 ∧
  ∀ p ∈ paydays, σ.amounts p a = a.value_per_payment.getD 0 * σ.paid p a

/-- Constraints added under `if account.min_payments and account.total_sum:`
— the minimum-plan variant. -/
def minC (paydays : List Int) (σ : Assignment) (a : Account) : Prop :=
  a.min_payments.getD 0 ≤ (paydays.map (fun p => σ.paid p a)).sum ∧
  a.total_sum.getD 0 ≤ (paydays.map (fun p => σ.amounts p a)).sum

/-- The payoff-variant constraints added for one account, guarded exactly as
the source guards them (Python truthiness of the optional fields). -/
def variantConstraints (paydays : List Int) (σ : Assignment) (a : Account) : Prop :=
  (truthy a.total_amount = true → lumpC paydays σ a) ∧
  (truthy a.num_payments = true → truthy a.value_per_payment = true →
    fixedC paydays σ a) ∧
  (truthy a.min_payments = true → truthy a.total_sum = true →
    minC paydays σ a)

/-- Feasibility of an assignment for the model built by the source: variable
domains (`lowBound=0`, `Binary`) plus every constraint added to `prob`, in
source order. -/
def Feasible (paydays : List Int) (accounts : List Account) (σ : Assignment) : Prop :=
  -- variable domains
  (∀ p ∈ paydays, ∀ a ∈ accounts, 0 ≤ σ.amounts p a) ∧
  (∀ p ∈ paydays, ∀ a ∈ accounts, σ.paid p a = 0 ∨ σ.paid p a = 1) ∧
  (∀ a ∈ accounts, 0 ≤ σ.created a) ∧
  (∀ a ∈ accounts, 0 ≤ σ.last_payment a) ∧
  (∀ p ∈ paydays, ∀ a ∈ accounts, σ.lastSel p a = 0 ∨ σ.lastSel p a = 1) ∧
  -- per-payday resource caps
  (∀ p ∈ paydays, (accounts.map (fun a => σ.amounts p a)).sum ≤ pay_amount) ∧
  (∀ p ∈ paydays, (accounts.map (fun a => σ.paid p a)).sum ≤ 3) ∧
  -- Big-M linking in both directions
  (∀ p ∈ paydays, ∀ a ∈ accounts, σ.amounts p a ≤ M * σ.paid p a) ∧
  (∀ p ∈ paydays, ∀ a ∈ accounts, minimum_payment * σ.paid p a ≤ σ.amounts p a) ∧
  -- creation before the start date (lead time 2)
  (∀ a ∈ accounts, σ.created a ≤ a.start_date - 2) ∧
  -- last payment bounds
  (∀ a ∈ accounts, ∀ p ∈ paydays, p * σ.paid p a ≤ σ.last_payment a) ∧
  (∀ a ∈ accounts, σ.last_payment a ≤ σ.created a + a.days_till_deadline) ∧
  -- one-hot selection of the last-payment payday
  (∀ a ∈ accounts, σ.last_payment a = (paydays.map (fun p => p * σ.lastSel p a)).sum) ∧
  (∀ a ∈ accounts, (paydays.map (fun p => σ.lastSel p a)).sum = 1) ∧
  -- payments only after creation (Big-M)
  (∀ a ∈ accounts, ∀ p ∈ paydays, σ.created a ≤ p + M * (1 - σ.paid p a)) ∧
  -- payoff-variant constraints
  (∀ a ∈ accounts, variantConstraints paydays σ a) ∧
  -- the objective auxiliary dominates every last payment
  (∀ a ∈ accounts, σ.last_payment a ≤ σ.maxLast)

instance (paydays : List Int) (σ : Assignment) (a : Account) :
    Decidable (lumpC paydays σ a) := by
  unfold lumpC; infer_instance

instance (paydays : List Int) (σ : Assignment) (a : Account) :
    Decidable (fixedC paydays σ a) := by
  unfold fixedC; infer_instance

instance (paydays : List Int) (σ : Assignment) (a : Account) :
    Decidable (minC paydays σ a) := by
  unfold minC; infer_instance

instance (paydays : List Int) (σ : Assignment) (a : Account) :
    Decidable (variantConstraints paydays σ a) := by
  unfold variantConstraints; infer_instance

instance (paydays : List Int) (accounts : List Account) (σ : Assignment) :
    Decidable (Feasible paydays accounts σ) := by
  unfold Feasible; infer_instance

/-! ### Result projection and CSV export -/

/-- Solver terminal statuses (`pulp.LpStatus` names used by the report). -/
inductive LpStatus where
  | optimal
  | infeasible
  | unbounded
  | notSolved
deriving DecidableEq

/-- The status string printed by `print("Status:", pulp.LpStatus[prob.status])`. -/
def statusName : LpStatus → String
  | LpStatus.optimal => "Optimal"
  | LpStatus.infeasible => "Infeasible"
  | LpStatus.unbounded => "Unbounded"
  | LpStatus.notSolved => "Not Solved"

/-- Insert `a` before the first element it compares ≤ to (stable insertion). -/
def insertSorted (le : α → α → Bool) (a : α) : List α → List α
  | [] => [a]
  | b :: t => if le a b then a :: b :: t else b :: insertSorted le a t

/-- Stable insertion sort; agrees with Python's stable `list.sort` on any
total preorder comparison. -/
def insertionSort (le : α → α → Bool) : List α → List α
  | [] => []
  | x :: xs => insertSorted le x (insertionSort le xs)

/-- Stable sort of the account list by solved creation day, modelling
`bonus_accounts.sort(key=lambda x: created[x].varValue)`. -/
def sortAccounts (accounts : List Account) (createdV : Account → Int) : List Account :=
  insertionSort (fun a b => decide (createdV a ≤ createdV b)) accounts

/-- The account table printed by the report: one `(name, created, last_payment)`
triple per account, in sorted-by-creation order. -/
def projectAccounts (σ : Assignment) (accounts : List Account) :
    List (String × Int × Int) :=
  (sortAccounts accounts σ.created).map
    (fun a => (a.name, σ.created a, σ.last_payment a))

/-- The payday ledger printed by the report: per payday, the total paid over
the accounts whose `paid` indicator is non-zero. -/
def projectPaydays (σ : Assignment) (paydays : List Int) (accounts : List Account) :
    List (Int × Int) :=
  paydays.map (fun p =>
    (p, ((accounts.filter (fun a => σ.paid p a ≠ 0)).map (fun a => σ.amounts p a)).sum))

/-- The report step: the status line is printed unconditionally; the numeric
projection then reads `varValue` of every variable with no status check, so it
raises a `TypeError` when no variable values exist (`vals = none`). -/
def runReport (status : LpStatus) (vals : Option Assignment)
    (paydays : List Int) (accounts : List Account) :
    String × Except String (List (String × Int × Int) × List (Int × Int)) :=
  (statusName status,
    match vals with
    | none => Except.error "TypeError"
    | some σ => Except.ok (projectAccounts σ accounts, projectPaydays σ paydays accounts))

/-- The CSV export: a header row, then one row per payday.  The export runs
after the report step, so it sees the account list already sorted in place by
solved creation day (line 197 of the source). -/
structure CsvOut where
  header : List String
  rows : List (Int × List Int)
deriving DecidableEq

/-- Build the CSV: header `"Payday"` followed by the (sorted) account names;
one row per payday holding that payday and the per-account amounts. -/
def exportCsv (paydays : List Int) (accounts : List Account)
    (createdV : Account → Int) (amountsV : Int → Account → Int) : CsvOut :=
  let sorted := sortAccounts accounts createdV
  ⟨"Payday" :: sorted.map (fun a => a.name),
   paydays.map (fun p => (p, sorted.map (fun a => amountsV p a)))⟩

/-! ### Concrete instances used by witnesses and counterexamples -/

/-- Witness lump-sum account (before the safety-margin subtraction). -/
def wA0 : Account := ⟨"L", 5, 60, some 200, none, none, none, none⟩

/-- Witness fixed-plan account (before the safety-margin subtraction). -/
def wB0 : Account := ⟨"F", 5, 60, none, some 2, some 100, none, none⟩

/-- Witness account list as the driver prepares it. -/
def wAccts : List Account := applySafety [wA0, wB0]

/-- Witness payday offsets. -/
def wPaydays : List Int := [10, 20]

/-- A feasible assignment for the witness instance: both accounts are paid 100
on both paydays, created at day 0, with last payment on day 20. -/
def wSigma : Assignment :=
  ⟨fun _ _ => 100, fun _ _ => 1, fun _ => 0, fun _ => 20,
   fun p _ => if p = 20 then 1 else 0, 20⟩

/-- An account whose lump-sum field is present but zero: the source's
truthiness test skips its variant constraints. -/
def aZ : Account := ⟨"Z", 5, 50, some 0, none, none, none, none⟩

/-- An account whose fixed-plan count is present but zero (value per payment
set): the source's truthiness test skips its variant constraints. -/
def aN : Account := ⟨"N", 5, 50, none, some 0, some 500, none, none⟩

/-- A feasible assignment for single-account, single-payday instances: pay 100
on payday 10, created at day 0. -/
def cSigma : Assignment :=
  ⟨fun _ _ => 100, fun _ _ => 1, fun _ => 0, fun _ => 10,
   fun p _ => if p = 10 then 1 else 0, 10⟩

/-- CSV counterexample account, declared first, solved creation day 5. -/
def aX : Account := ⟨"X", 30, 50, some 100, none, none, none, none⟩

/-- CSV counterexample account, declared second, solved creation day 3. -/
def aY : Account := ⟨"Y", 29, 50, some 100, none, none, none, none⟩

/-- A feasible assignment for the accounts `aX` and `aY` on payday 10 in
which the second-declared account was created earlier. -/
def dSigma : Assignment :=
  ⟨fun _ _ => 100, fun _ _ => 1, fun a => if a.start_date = 30 then 5 else 3,
   fun _ => 10, fun p _ => if p = 10 then 1 else 0, 10⟩

/-! ### Helper lemmas on sorting and sums of binary variables -/

theorem length_insertSorted (le : α → α → Bool) (a : α) (l : List α) :
    (insertSorted le a l).length = l.length + 1 := by
  induction l with
  | nil => rfl
  | cons b t ih =>
    unfold insertSorted
    by_cases h : le a b = true
    · simp [h]
    · simp [h, ih]

theorem length_insertionSort (le : α → α → Bool) (l : List α) :
    (insertionSort le l).length = l.length := by
  induction l with
  | nil => rfl
  | cons x xs ih =>
    unfold insertionSort
    rw [length_insertSorted, ih, List.length_cons]

theorem binsum_nonneg (l : List Int) (f : Int → Int)
    (hb : ∀ p ∈ l, f p = 0 ∨ f p = 1) : 0 ≤ (l.map f).sum := by
  induction l with
  | nil => simp
  | cons p t ih =>
    have h1 := hb p (List.mem_cons_self p t)
    have h2 := ih (fun q hq => hb q (List.mem_cons_of_mem p hq))
    simp only [List.map_cons, List.sum_cons]
    rcases h1 with h1 | h1 <;> omega

theorem binsum_eq_zero (l : List Int) (f : Int → Int)
    (hb : ∀ p ∈ l, f p = 0 ∨ f p = 1)
    (hs : (l.map f).sum = 0) : ∀ p ∈ l, f p = 0 := by
  induction l with
  | nil => intro p hp; cases hp
  | cons p t ih =>
    have h1 := hb p (List.mem_cons_self p t)
    have hb' : ∀ q ∈ t, f q = 0 ∨ f q = 1 :=
      fun q hq => hb q (List.mem_cons_of_mem p hq)
    have h2 := binsum_nonneg t f hb'
    simp only [List.map_cons, List.sum_cons] at hs
    have hp0 : f p = 0 := by rcases h1 with h1 | h1 <;> omega
    have ht0 : (t.map f).sum = 0 := by omega
    intro q hq
    rcases List.mem_cons.mp hq with rfl | hq
    · exact hp0
    · exact ih hb' ht0 q hq

theorem weighted_binsum_zero (l : List Int) (f : Int → Int)
    (h0 : ∀ p ∈ l, f p = 0) : (l.map (fun q => q * f q)).sum = 0 := by
  apply List.sum_eq_zero
  intro x hx
  obtain ⟨q, hq, rfl⟩ := List.mem_map.mp hx
  rw [h0 q hq, mul_zero]

theorem binsum_eq_one (l : List Int) (f : Int → Int)
    (hb : ∀ p ∈ l, f p = 0 ∨ f p = 1)
    (hs : (l.map f).sum = 1) :
    ∃ p ∈ l, f p = 1 ∧ (∀ q ∈ l, f q = 1 → q = p) ∧
      (l.map (fun q => q * f q)).sum = p := by
  induction l with
  | nil => simp at hs
  | cons p t ih =>
    have h1 := hb p (List.mem_cons_self p t)
    have hb' : ∀ q ∈ t, f q = 0 ∨ f q = 1 :=
      fun q hq => hb q (List.mem_cons_of_mem p hq)
    simp only [List.map_cons, List.sum_cons] at hs ⊢
    rcases h1 with h1 | h1
    · have ht : (t.map f).sum = 1 := by omega
      obtain ⟨p', hp', hone, huniq, hw⟩ := ih hb' ht
      refine ⟨p', List.mem_cons_of_mem p hp', hone, ?_, ?_⟩
      · intro q hq hfq
        rcases List.mem_cons.mp hq with rfl | hq
        · omega
        · exact huniq q hq hfq
      · rw [h1, mul_zero, zero_add, hw]
    · have ht : (t.map f).sum = 0 := by omega
      have h0 := binsum_eq_zero t f hb' ht
      refine ⟨p, List.mem_cons_self p t, h1, ?_, ?_⟩
      · intro q hq hfq
        rcases List.mem_cons.mp hq with rfl | hq
        · rfl
        · have := h0 q hq; omega
      · rw [h1, mul_one, weighted_binsum_zero t f h0, add_zero]

theorem binsum_ge_one (l : List Int) (f : Int → Int)
    (hb : ∀ p ∈ l, f p = 0 ∨ f p = 1)
    (hs : 1 ≤ (l.map f).sum) : ∃ p ∈ l, f p = 1 := by
  by_contra hno
  push_neg at hno
  have h0 : ∀ p ∈ l, f p = 0 := by
    intro p hp
    rcases hb p hp with h | h
    · exact h
    · exact absurd h (hno p hp)
  have : (l.map f).sum = 0 :=
    List.sum_eq_zero (by
      intro x hx
      obtain ⟨q, hq, rfl⟩ := List.mem_map.mp hx
      exact h0 q hq)
  omega

/-! ### Claim theorems -/

/-- Claim C1: in every feasible assignment, for every account exactly one
last-payment selector binary is 1, and `last_payment` equals the selected
payday value, so no interpolated (non-payday) last-payment value is feasible. -/
theorem last_payment_one_hot (paydays : List Int) (accounts : List Account)
    (σ : Assignment) (hf : Feasible paydays accounts σ)
    (a : Account) (ha : a ∈ accounts) :
    ∃ p ∈ paydays, σ.lastSel p a = 1 ∧
      (∀ q ∈ paydays, σ.lastSel q a = 1 → q = p) ∧ σ.last_payment a = p := by
  obtain ⟨-, -, -, -, hSb, -, -, -, -, -, -, -, hHotEq, hHotSum, -, -, -⟩ := hf
  obtain ⟨p, hp, hone, huniq, hw⟩ :=
    binsum_eq_one paydays (fun q => σ.lastSel q a)
      (fun q hq => hSb q hq a ha) (hHotSum a ha)
  refine ⟨p, hp, hone, huniq, ?_⟩
  rw [hHotEq a ha]
  exact hw

/-- Closed instance of claim C1's theorem on the witness model. -/
theorem last_payment_one_hot_witness :
    Feasible wPaydays wAccts wSigma ∧
    ∃ p ∈ wPaydays, wSigma.lastSel p (safetyAdj wA0) = 1 ∧
      (∀ q ∈ wPaydays, wSigma.lastSel q (safetyAdj wA0) = 1 → q = p) ∧
      wSigma.last_payment (safetyAdj wA0) = p :=
  ⟨by decide,
   last_payment_one_hot wPaydays wAccts wSigma (by decide) (safetyAdj wA0) (by decide)⟩

/-- Claim C2: in every feasible assignment, each account's last payment is at
most its creation day plus its deadline window as used in the model (the
declared window minus the safety margin), its creation day is at most
`start_date` minus the lead time 2, and every payday with the paid indicator
set bounds the last payment from below. -/
theorem timing_bounds (paydays : List Int) (accounts : List Account)
    (σ : Assignment) (hf : Feasible paydays (applySafety accounts) σ)
    (a : Account) (ha : a ∈ accounts) :
    σ.last_payment (safetyAdj a) ≤
      σ.created (safetyAdj a) + (a.days_till_deadline - safety_days) ∧
    σ.created (safetyAdj a) ≤ a.start_date - 2 ∧
    ∀ p ∈ paydays, σ.paid p (safetyAdj a) = 1 → p ≤ σ.last_payment (safetyAdj a) := by
  have ha' : safetyAdj a ∈ applySafety accounts := List.mem_map_of_mem safetyAdj ha
  obtain ⟨-, -, -, -, -, -, -, -, -, hStart, hLpGe, hLpLe, -, -, -, -, -⟩ := hf
  refine ⟨hLpLe (safetyAdj a) ha', hStart (safetyAdj a) ha', ?_⟩
  intro p hp hpaid
  have h := hLpGe (safetyAdj a) ha' p hp
  rw [hpaid, mul_one] at h
  exact h

/-- Closed instance of claim C2's theorem on the witness model. -/
theorem timing_bounds_witness :
    Feasible wPaydays (applySafety [wA0, wB0]) wSigma ∧
    (wSigma.last_payment (safetyAdj wA0) ≤
      wSigma.created (safetyAdj wA0) + (wA0.days_till_deadline - safety_days) ∧
    wSigma.created (safetyAdj wA0) ≤ wA0.start_date - 2 ∧
    ∀ p ∈ wPaydays, wSigma.paid p (safetyAdj wA0) = 1 →
      p ≤ wSigma.last_payment (safetyAdj wA0)) :=
  ⟨by decide, timing_bounds wPaydays [wA0, wB0] wSigma (by decide) wA0 (by decide)⟩

/-- Claim C3: in every feasible assignment, for every payday-account pair the
Big-M linking holds in both directions, the paid binary is exactly the
indicator of a non-zero amount, and every non-zero disbursement is at least
the minimum-payment floor. -/
theorem paid_indicator_linking (paydays : List Int) (accounts : List Account)
    (σ : Assignment) (hf : Feasible paydays accounts σ)
    (p : Int) (hp : p ∈ paydays) (a : Account) (ha : a ∈ accounts) :
    σ.amounts p a ≤ M * σ.paid p a ∧
    minimum_payment * σ.paid p a ≤ σ.amounts p a ∧
    (0 < σ.amounts p a ↔ σ.paid p a = 1) ∧
    (σ.paid p a = 1 → minimum_payment ≤ σ.amounts p a) := by
  obtain ⟨hAm, hPb, -, -, -, -, -, hBigM, hMin, -, -, -, -, -, -, -, -⟩ := hf
  have hb := hPb p hp a ha
  have h1 := hBigM p hp a ha
  have h2 := hMin p hp a ha
  have h3 := hAm p hp a ha
  simp only [M, minimum_payment] at h1 h2 ⊢
  refine ⟨h1, h2, ⟨fun h => ?_, fun h => ?_⟩, fun h => ?_⟩ <;> omega

/-- Closed instance of claim C3's theorem on the witness model. -/
theorem paid_indicator_linking_witness :
    Feasible wPaydays wAccts wSigma ∧
    (wSigma.amounts 10 (safetyAdj wA0) ≤ M * wSigma.paid 10 (safetyAdj wA0) ∧
    minimum_payment * wSigma.paid 10 (safetyAdj wA0) ≤ wSigma.amounts 10 (safetyAdj wA0) ∧
    (0 < wSigma.amounts 10 (safetyAdj wA0) ↔ wSigma.paid 10 (safetyAdj wA0) = 1) ∧
    (wSigma.paid 10 (safetyAdj wA0) = 1 →
      minimum_payment ≤ wSigma.amounts 10 (safetyAdj wA0))) :=
  ⟨by decide,
   paid_indicator_linking wPaydays wAccts wSigma (by decide) 10 (by decide)
     (safetyAdj wA0) (by decide)⟩

/-- Claim C8: in every feasible assignment, each payday's total allocation is
at most the disbursement budget 675 and at most 3 accounts are paid. -/
theorem per_payday_caps (paydays : List Int) (accounts : List Account)
    (σ : Assignment) (hf : Feasible paydays accounts σ)
    (p : Int) (hp : p ∈ paydays) :
    (accounts.map (fun a => σ.amounts p a)).sum ≤ pay_amount ∧
    (accounts.map (fun a => σ.paid p a)).sum ≤ 3 := by
  obtain ⟨-, -, -, -, -, hBud, hCnt, -, -, -, -, -, -, -, -, -, -⟩ := hf
  exact ⟨hBud p hp, hCnt p hp⟩

/-- Closed instance of claim C8's theorem on the witness model. -/
theorem per_payday_caps_witness :
    Feasible wPaydays wAccts wSigma ∧
    ((wAccts.map (fun a => wSigma.amounts 10 a)).sum ≤ pay_amount ∧
    (wAccts.map (fun a => wSigma.paid 10 a)).sum ≤ 3) :=
  ⟨by decide, per_payday_caps wPaydays wAccts wSigma (by decide) 10 (by decide)⟩

/-- Counterexample to claim C6 as stated: an account with `total_amount` set
(to 0) admits a feasible assignment whose allocated total differs from
`total_amount`, because the source dispatches on truthiness, not presence. -/
theorem lump_sum_presence_counterexample :
    Feasible [10] [aZ] cSigma ∧ aZ.total_amount.isSome = true ∧
    (([10] : List Int).map (fun p => cSigma.amounts p aZ)).sum ≠
      aZ.total_amount.getD 0 := by decide

/-- Claim C6 (amended to non-zero `total_amount`): in every feasible
assignment, an account whose `total_amount` is set and non-zero has its
allocations summing exactly to `total_amount`, and at least one payday has
the paid indicator set with a strictly positive allocation. -/
theorem lump_sum_totals (paydays : List Int) (accounts : List Account)
    (σ : Assignment) (hf : Feasible paydays accounts σ)
    (a : Account) (ha : a ∈ accounts) (ht : truthy a.total_amount = true) :
    (paydays.map (fun p => σ.amounts p a)).sum = a.total_amount.getD 0 ∧
    1 ≤ (paydays.map (fun p => σ.paid p a)).sum ∧
    ∃ p ∈ paydays, σ.paid p a = 1 ∧ 0 < σ.amounts p a := by
  obtain ⟨-, hPb, -, -, -, -, -, -, hMin, -, -, -, -, -, -, hVar, -⟩ := hf
  obtain ⟨hsum, hcnt⟩ := (hVar a ha).1 ht
  refine ⟨hsum, hcnt, ?_⟩
  obtain ⟨p, hp, hone⟩ :=
    binsum_ge_one paydays (fun p => σ.paid p a) (fun q hq => hPb q hq a ha) hcnt
  have h2 := hMin p hp a ha
  rw [hone, mul_one] at h2
  simp only [minimum_payment] at h2
  exact ⟨p, hp, hone, by omega⟩

/-- Closed instance of claim C6's amended theorem on the witness model. -/
theorem lump_sum_totals_witness :
    Feasible wPaydays wAccts wSigma ∧ truthy (safetyAdj wA0).total_amount = true ∧
    ((wPaydays.map (fun p => wSigma.amounts p (safetyAdj wA0))).sum =
      (safetyAdj wA0).total_amount.getD 0 ∧
    1 ≤ (wPaydays.map (fun p => wSigma.paid p (safetyAdj wA0))).sum ∧
    ∃ p ∈ wPaydays, wSigma.paid p (safetyAdj wA0) = 1 ∧
      0 < wSigma.amounts p (safetyAdj wA0)) :=
  ⟨by decide, by decide,
   lump_sum_totals wPaydays wAccts wSigma (by decide) (safetyAdj wA0)
     (by decide) (by decide)⟩

/-- Counterexample to claim C7 as stated: an account with `num_payments` set
(to 0) and `value_per_payment` set admits a feasible assignment whose count of
paid paydays differs from `num_payments` and whose allocation is not
`value_per_payment · paid`, because the source dispatches on truthiness. -/
theorem fixed_plan_presence_counterexample :
    Feasible [10] [aN] cSigma ∧ aN.num_payments.isSome = true ∧
    aN.value_per_payment.isSome = true ∧
    (([10] : List Int).map (fun p => cSigma.paid p aN)).sum ≠
      aN.num_payments.getD 0 ∧
    cSigma.amounts 10 aN ≠ aN.value_per_payment.getD 0 * cSigma.paid 10 aN := by
  decide

/-- Claim C7 (amended to non-zero `num_payments` and `value_per_payment`): in
every feasible assignment, an account with both fixed-plan fields set and
non-zero is paid on exactly `num_payments` paydays, and on every payday its
allocation is `value_per_payment` times the indicator — `value_per_payment`
exactly when paid, zero otherwise. -/
theorem fixed_plan_totals (paydays : List Int) (accounts : List Account)
    (σ : Assignment) (hf : Feasible paydays accounts σ)
    (a : Account) (ha : a ∈ accounts)
    (hnp : truthy a.num_payments = true) (hvp : truthy a.value_per_payment = true) :
    (paydays.map (fun p => σ.paid p a)).sum = a.num_payments.getD 0 ∧
    ∀ p ∈ paydays, σ.amounts p a = a.value_per_payment.getD 0 * σ.paid p a ∧
      (σ.paid p a = 1 → σ.amounts p a = a.value_per_payment.getD 0) ∧
      (σ.paid p a = 0 → σ.amounts p a = 0) := by
  obtain ⟨-, -, -, -, -, -, -, -, -, -, -, -, -, -, -, hVar, -⟩ := hf
  obtain ⟨hcnt, heq⟩ := (hVar a ha).2.1 hnp hvp
  refine ⟨hcnt, ?_⟩
  intro p hp
  have h := heq p hp
  refine ⟨h, fun h1 => ?_, fun h0 => ?_⟩
  · rw [h, h1, mul_one]
  · rw [h, h0, mul_zero]

/-- Closed instance of claim C7's amended theorem on the witness model. -/
theorem fixed_plan_totals_witness :
    Feasible wPaydays wAccts wSigma ∧ truthy (safetyAdj wB0).num_payments = true ∧
    truthy (safetyAdj wB0).value_per_payment = true ∧
    ((wPaydays.map (fun p => wSigma.paid p (safetyAdj wB0))).sum =
      (safetyAdj wB0).num_payments.getD 0 ∧
    ∀ p ∈ wPaydays, wSigma.amounts p (safetyAdj wB0) =
        (safetyAdj wB0).value_per_payment.getD 0 * wSigma.paid p (safetyAdj wB0) ∧
      (wSigma.paid p (safetyAdj wB0) = 1 →
        wSigma.amounts p (safetyAdj wB0) = (safetyAdj wB0).value_per_payment.getD 0) ∧
      (wSigma.paid p (safetyAdj wB0) = 0 → wSigma.amounts p (safetyAdj wB0) = 0)) :=
  ⟨by decide, by decide, by decide,
   fixed_plan_totals wPaydays wAccts wSigma (by decide) (safetyAdj wB0)
     (by decide) (by decide) (by decide)⟩

/-- Claim C10: the builder dispatches on field truthiness, not presence: a
variant field populated with 0 yields no variant constraints for any
assignment, and an account with non-zero fields of several variants receives
every matching variant's constraint set simultaneously. -/
theorem variant_dispatch_truthiness :
    (∀ (σ : Assignment) (paydays : List Int) (a : Account),
      a.total_amount = some 0 → a.num_payments = none → a.min_payments = none →
      variantConstraints paydays σ a) ∧
    (∀ (σ : Assignment) (paydays : List Int) (a : Account),
      a.num_payments = some 0 → a.value_per_payment.isSome = true →
      a.total_amount = none → a.min_payments = none →
      variantConstraints paydays σ a) ∧
    (∀ (σ : Assignment) (paydays : List Int) (a : Account),
      truthy a.total_amount = true → truthy a.num_payments = true →
      truthy a.value_per_payment = true → truthy a.min_payments = true →
      truthy a.total_sum = true → variantConstraints paydays σ a →
      lumpC paydays σ a ∧ fixedC paydays σ a ∧ minC paydays σ a) := by
  refine ⟨?_, ?_, ?_⟩
  · intro σ paydays a h1 h2 h3
    refine ⟨fun ht => ?_, fun hn _ => ?_, fun hm _ => ?_⟩
    · rw [h1] at ht; exact absurd ht (by decide)
    · rw [h2] at hn; exact absurd hn (by decide)
    · rw [h3] at hm; exact absurd hm (by decide)
  · intro σ paydays a h1 _ h2 h3
    refine ⟨fun ht => ?_, fun hn _ => ?_, fun hm _ => ?_⟩
    · rw [h2] at ht; exact absurd ht (by decide)
    · rw [h1] at hn; exact absurd hn (by decide)
    · rw [h3] at hm; exact absurd hm (by decide)
  · intro σ paydays a ht hnp hvp hmp hts hv
    exact ⟨hv.1 ht, hv.2.1 hnp hvp, hv.2.2 hmp hts⟩

/-- Closed instance of claim C10's theorem: the zero-valued lump-sum account
receives no payoff-variant constraints under the feasible assignment `cSigma`. -/
theorem variant_dispatch_truthiness_witness :
    variantConstraints [10] cSigma aZ :=
  variant_dispatch_truthiness.1 cSigma [10] aZ rfl rfl rfl

/-- Claim C9: every day offset returned by the calendar generator is strictly
positive, and any candidate falling on or before today is excluded. -/
theorem get_paydays_positive (year today : Int) :
    (∀ x ∈ get_paydays year today, 0 < x) ∧
    ∀ d : Int, d ≤ today → (d - today) ∉ get_paydays year today := by
  have hpos : ∀ x ∈ get_paydays year today, 0 < x := by
    intro x hx
    simp only [get_paydays, List.mem_map, List.mem_filter, decide_eq_true_eq] at hx
    obtain ⟨d, ⟨-, hd⟩, rfl⟩ := hx
    omega
  refine ⟨hpos, ?_⟩
  intro d hd hmem
  have := hpos _ hmem
  omega

/-- Closed instance of claim C9's theorem: the first 2025 payday relative to
day 0 (1970-01-01) is a member, hence strictly positive. -/
theorem get_paydays_positive_witness :
    (20103 : Int) ∈ get_paydays 2025 0 ∧ (0 : Int) < 20103 :=
  ⟨by decide, (get_paydays_positive 2025 0).1 20103 (by decide)⟩

/-- Claim C5 (the code contradicts it): at a non-optimal status with no
variable values, the report prints the status line but does not skip the
numeric projection — it attempts it unconditionally and raises a `TypeError`. -/
theorem report_no_values_raises :
    runReport LpStatus.infeasible none wPaydays wAccts =
      ("Infeasible", Except.error "TypeError") := rfl

/-- Counterexample to claim C4 as stated: a feasible solution in which the
solved creation days reverse the declaration order makes the exported header
differ from declaration order, because the report step sorted the account
list in place before the export. -/
theorem csv_column_order_counterexample :
    Feasible [10] [aX, aY] dSigma ∧
    (exportCsv [10] [aX, aY] dSigma.created dSigma.amounts).header ≠
      "Payday" :: [aX, aY].map (fun a => a.name) := by decide

/-- The candidate paydays of 2025 are strictly increasing (concrete check). -/
theorem paydayCandidates_2025_ascending :
    (paydayCandidates 2025).Pairwise (fun a b : Int => a < b) := by decide

/-- The generated 2025 payday offsets are strictly increasing for every
reference day. -/
theorem get_paydays_2025_ascending (t : Int) :
    (get_paydays 2025 t).Pairwise (fun a b : Int => a < b) := by
  have hf : ((paydayCandidates 2025).filter (fun d => t < d)).Pairwise
      (fun a b : Int => a < b) :=
    paydayCandidates_2025_ascending.filter _
  exact hf.map (fun d => d - t) (fun a b h => by show a - t < b - t; omega)

/-- Claim C4 (amended: column order follows the report step's in-place sort by
solved creation day, not declaration order): the export has a header of
`"Payday"` followed by the sorted account names, one row per generated payday
with one cell per account, and the rows appear in strictly ascending payday
order. -/
theorem csv_shape (t : Int) (accounts : List Account)
    (createdV : Account → Int) (amountsV : Int → Account → Int) :
    (exportCsv (get_paydays 2025 t) accounts createdV amountsV).header =
      "Payday" :: (sortAccounts accounts createdV).map (fun a => a.name) ∧
    (exportCsv (get_paydays 2025 t) accounts createdV amountsV).rows.map Prod.fst =
      get_paydays 2025 t ∧
    (∀ r ∈ (exportCsv (get_paydays 2025 t) accounts createdV amountsV).rows,
      r.2.length = accounts.length) ∧
    ((exportCsv (get_paydays 2025 t) accounts createdV amountsV).rows.map
      Prod.fst).Pairwise (fun a b : Int => a < b) := by
  have hrows : (exportCsv (get_paydays 2025 t) accounts createdV amountsV).rows.map
      Prod.fst = get_paydays 2025 t := by
    simp only [exportCsv, List.map_map]
    exact List.map_id _
  refine ⟨rfl, hrows, ?_, ?_⟩
  · intro r hr
    simp only [exportCsv, List.mem_map] at hr
    obtain ⟨p, -, rfl⟩ := hr
    simp [sortAccounts, length_insertionSort]
  · rw [hrows]
    exact get_paydays_2025_ascending t

/-- Closed instance of claim C4's amended theorem at a concrete reference day
and the CSV counterexample accounts. -/
theorem csv_shape_witness :
    (exportCsv (get_paydays 2025 20400) [aX, aY] dSigma.created dSigma.amounts).header =
      "Payday" :: (sortAccounts [aX, aY] dSigma.created).map (fun a => a.name) ∧
    (exportCsv (get_paydays 2025 20400) [aX, aY] dSigma.created dSigma.amounts).rows.map
      Prod.fst = get_paydays 2025 20400 ∧
    (∀ r ∈ (exportCsv (get_paydays 2025 20400) [aX, aY] dSigma.created dSigma.amounts).rows,
      r.2.length = ([aX, aY] : List Account).length) ∧
    ((exportCsv (get_paydays 2025 20400) [aX, aY] dSigma.created dSigma.amounts).rows.map
      Prod.fst).Pairwise (fun a b : Int => a < b) :=
  csv_shape 20400 [aX, aY] dSigma.created dSigma.amounts

end Bonus
